import Mathlib

/-!
Formal model of `src/proof_of_concept.py` (internship recommender).

Python strings are modelled as `List Char`, scores as `ℚ` (so the
constants 0.15, 0.10, 0.05, 0.30, 0.45 of the source are represented
exactly), Python `int` as `Int`.  Python floor division `//` is
`Int.fdiv`; `int()` applied to a float truncates toward zero.
`numpy.argsort(...)[::-1]` is modelled by an ascending insertion sort
followed by `List.reverse`.  numpy's default quicksort gives no
general tie-order guarantee; the insertion sort here coincides with it
on arrays below numpy's small-array cutoff (all concrete instances in
this file have 5 items or fewer, where introsort runs its stable
insertion-sort branch), and no theorem below asserts a tie order
except at such concrete instances.  For any sort, sortedness, length
and the head-is-maximum facts used by the tier theorems are
unaffected by how ties are broken.
-/

attribute [local semireducible] Rat.add Rat.mul Rat.sub Rat.inv

/-- Characters of a Lean string literal, used to write concrete Python strings. -/
def pys (s : String) : List Char := s.data

/-- Python `str.lower()` (ASCII behaviour, which covers this code base). -/
def toLowerL (s : List Char) : List Char := s.map Char.toLower

/-- Python `str.strip()`: drop whitespace from both ends. -/
def stripWs (s : List Char) : List Char :=
  ((s.dropWhile Char.isWhitespace).reverse.dropWhile Char.isWhitespace).reverse

/-- Core of splitting at separator characters: returns the piece up to the
first separator and the list of later pieces (Python `str.split(sep)`
semantics: empty pieces are kept). -/
def pySplitAux (p : Char → Bool) : List Char → List Char × List (List Char)
  | [] => ([], [])
  | c :: cs =>
    match pySplitAux p cs with
    | (t, ts) => if p c then ([], t :: ts) else (c :: t, ts)

/-- Python `s.split(sep)` for a one-character separator class `p`. -/
def pySplitOn (p : Char → Bool) (s : List Char) : List (List Char) :=
  (pySplitAux p s).1 :: (pySplitAux p s).2

/-- Python `str.split()` with no argument: split on whitespace, discarding
empty pieces. -/
def pySplitWs (s : List Char) : List (List Char) :=
  (pySplitOn (fun c => c.isWhitespace) s).filter (fun t => !t.isEmpty)

/-- Numeric value of a list of decimal digit characters. -/
def digitsVal (l : List Char) : Nat :=
  l.foldl (fun a c => a * 10 + (c.toNat - 48)) 0

/-- Parse a nonempty all-digit string to its value. -/
def digitsOpt (l : List Char) : Option Nat :=
  if !l.isEmpty && l.all Char.isDigit then some (digitsVal l) else none

/-- Python `int(s)` on a string: optional surrounding whitespace, optional
sign, decimal digits; `none` models the `ValueError` raised otherwise.
(CPython also accepts underscores between digits; this does not occur in
this data set and is not modelled.) -/
def pyInt (s : List Char) : Option Int :=
  match stripWs s with
  | [] => none
  | c :: cs =>
    if c = '+' then (digitsOpt cs).map (fun n => (n : Int))
    else if c = '-' then (digitsOpt cs).map (fun n => -(n : Int))
    else (digitsOpt (c :: cs)).map (fun n => (n : Int))

/-- A raw stipend value as found in the catalog JSON: a number or a string. -/
inductive StipendRaw where
  | num (q : ℚ)
  | str (s : List Char)
deriving DecidableEq

/-- Body of the `try:` block of `parse_stipend` for string input: the
`"unpaid"` test, then `stipend_str.replace(",", "").split()`, the
`"-" in parts[0]` range branch, and the plain `int(parts[0])` branch.
`none` models a `ValueError`/`IndexError` caught by the handler. -/
def parseStipendStr (s : List Char) : Option Int :=
  if toLowerL s = pys "unpaid" then some 0
  else
    match pySplitWs (s.filter (fun c => c != ',')) with
    | [] => none
    | p0 :: _ =>
      if '-' ∈ p0 then
        match pySplitOn (fun c => c == '-') p0 with
        | [low, high] =>
          match pyInt low, pyInt high with
          | some a, some b => some ((a + b).fdiv 2)
          | _, _ => none
        | _ => none
      else pyInt p0

/-- `parse_stipend` from the source on finite numbers and strings:
numbers are truncated to `Int`, strings go through `parseStipendStr`,
and any caught parse failure yields `0`.  (Non-finite floats are
covered separately by `parse_stipend_float`.) -/
def parse_stipend : StipendRaw → Int
  | .num q => Int.tdiv q.num (q.den : Int)
  | .str s => (parseStipendStr s).getD 0

/-- A Python float: a finite value, a signed infinity or NaN. -/
inductive PyFloat where
  | finite (q : ℚ)
  | inf
  | negInf
  | nan
deriving DecidableEq

/-- The numeric branch of `parse_stipend` under its `try/except` for a
float argument: `int(x)` truncates a finite float toward zero; on NaN
the raised `ValueError` is caught and the handler returns `0`; on
`±inf` `int()` raises `OverflowError`, which is NOT in
`(ValueError, IndexError)` and so propagates (`Except.error`). -/
def parse_stipend_float : PyFloat → Except Unit Int
  | .finite q => .ok (Int.tdiv q.num (q.den : Int))
  | .nan => .ok 0
  | .inf => .error ()
  | .negInf => .error ()

/-- Proleptic Gregorian date, as validated by `datetime.date`. -/
structure PyDate where
  year : Nat
  month : Nat
  day : Nat
deriving DecidableEq

/-- Gregorian leap-year rule. -/
def isLeapYear (y : Nat) : Bool :=
  (y % 4 == 0) && (y % 100 != 0 || y % 400 == 0)

/-- Month lengths, January first. -/
def monthLengths (leap : Bool) : List Nat :=
  [31, if leap then 29 else 28, 31, 30, 31, 30, 31, 31, 30, 31, 30, 31]

/-- Number of days of month `m` (1-based) in year `y`. -/
def daysInMonth (y m : Nat) : Nat :=
  (monthLengths (isLeapYear y)).getD (m - 1) 0

/-- Days in the months of year `y` strictly before month `m` (1-based). -/
def daysBeforeMonth (y m : Nat) : Nat :=
  ((monthLengths (isLeapYear y)).take (m - 1)).sum

/-- `datetime.date.toordinal`: day number in the proleptic Gregorian
calendar, with 1-Jan-0001 as day 1.  Subtracting two ordinals gives the
`.days` of the `timedelta` between the two dates. -/
def toOrdinal (d : PyDate) : Nat :=
  365 * (d.year - 1) + (d.year - 1) / 4 - (d.year - 1) / 100 + (d.year - 1) / 400
    + daysBeforeMonth d.year d.month + d.day

/-- Lowercased month abbreviations recognised by `strptime`'s `%b` in the
C locale (the match is case-insensitive). -/
def monthAbbrevs : List (List Char) :=
  [pys "jan", pys "feb", pys "mar", pys "apr", pys "may", pys "jun",
   pys "jul", pys "aug", pys "sep", pys "oct", pys "nov", pys "dec"]

/-- 1-based month of an abbreviation, case-insensitively. -/
def monthOfAbbrev (s : List Char) : Option Nat :=
  match monthAbbrevs.findIdx? (fun t => t == toLowerL s) with
  | some i => some (i + 1)
  | none => none

/-- `strptime`'s `%d` field: CPython's regex
`3[01]|[12]\d|0[1-9]|[1-9]| [1-9]` accepts one or two digits or a
space-padded single nonzero digit (values above 31 never match, which
the later day-of-month validation subsumes). -/
def pyDay (ds : List Char) : Option Nat :=
  match ds with
  | [' ', c] => if c.isDigit && c != '0' then some (c.toNat - 48) else none
  | _ => if ds.length ≤ 2 then digitsOpt ds else none

/-- `datetime.datetime.strptime(s, "%d-%b-%Y").date()`: a `%d` day (1-2
digits or space-padded digit), a month abbreviation (case-insensitive)
and a `%Y` year of EXACTLY 4 digits (CPython's `%Y` regex is
`\d\d\d\d`), joined by literal `-` with nothing left over, the values
then validated by the `date` constructor (`MINYEAR <= year <= MAXYEAR`,
day within the month).  `none` models the raised `ValueError`. -/
def parseDate (s : List Char) : Option PyDate :=
  match pySplitOn (fun c => c == '-') s with
  | [ds, ms, ys] =>
    match pyDay ds, monthOfAbbrev ms, digitsOpt ys with
    | some d, some m, some y =>
      if ys.length = 4 ∧ 1 ≤ y ∧ y ≤ 9999 ∧ 1 ≤ d ∧ d ≤ daysInMonth y m then
        some ⟨y, m, d⟩
      else none
    | _, _, _ => none
  | _ => none

/-- The recency-boost block of `recommend_internships`: parse `apply_by`,
let `days_left = apply_by - today` in days (`today` is an ordinal day
number), and contribute `0.10 * (30 - days_left)/30` when
`0 < days_left <= 30`, else `0`.  A missing (`None`) or unparseable
value contributes `0` (the `ValueError`/`TypeError` caught by the
source's handler). -/
def recencyBoost (applyBy : Option (List Char)) (today : Int) : ℚ :=
  match applyBy with
  | none => 0
  | some s =>
    match parseDate s with
    | none => 0
    | some d =>
      if 0 < (toOrdinal d : Int) - today ∧ (toOrdinal d : Int) - today ≤ 30 then
        1/10 * ((30 - ((toOrdinal d : Int) - today) : Int) : ℚ) / 30
      else 0

/-- `startsWithL a b`: `a` is a prefix of `b`. -/
def startsWithL : List Char → List Char → Bool
  | [], _ => true
  | _ :: _, [] => false
  | a :: as, b :: bs => a == b && startsWithL as bs

/-- Python `needle in haystack` on strings: contiguous substring test
(the empty string occurs in everything). -/
def containsSub (needle : List Char) : List Char → Bool
  | [] => startsWithL needle []
  | c :: cs => startsWithL needle (c :: cs) || containsSub needle cs

/-- One catalog item, with the fields `recommend_internships` and
`create_or_update_embeddings` read.  `applyBy.none` models a JSON
`null` (`strptime` then raises the caught `TypeError`). -/
structure Internship where
  id : String
  title : List Char
  organization : List Char
  location : List Char
  duration : List Char
  description : List Char
  skills : List Char
  stipend : StipendRaw
  applyBy : Option (List Char)
deriving DecidableEq

/-- The per-query filter arguments of `recommend_internships`. -/
structure Criteria where
  location : List Char
  duration : List Char
  stipendMin : Int
  stipendMax : Int

/-- Location boost (`+0.15`): the requested location is not the sentinel
`"Any"` and is a case-insensitive substring of the item's location. -/
def locationBoost (req itemLoc : List Char) : ℚ :=
  if req ≠ pys "Any" ∧ containsSub (toLowerL req) (toLowerL itemLoc) = true
  then 3/20 else 0

/-- `s.replace("months", "")` on an already lowercased string:
left-to-right removal of non-overlapping occurrences, without rescanning
the part already produced. -/
def removeMonths : List Char → List Char
  | 'm' :: 'o' :: 'n' :: 't' :: 'h' :: 's' :: rest => removeMonths rest
  | c :: cs => c :: removeMonths cs
  | [] => []

/-- Duration normalization of the source: lowercase, remove `"months"`,
strip whitespace. -/
def normDuration (s : List Char) : List Char :=
  stripWs (removeMonths (toLowerL s))

/-- Duration boost (`+0.05`): request not `"Any"` and normalized request
a substring of the normalized item duration. -/
def durationBoost (req itemDur : List Char) : ℚ :=
  if req ≠ pys "Any" ∧ containsSub (normDuration req) (normDuration itemDur) = true
  then 1/20 else 0

/-- Stipend boost (`+0.10`): the parsed stipend lies in
`[stipend_min, stipend_max]`. -/
def stipendBoost (smin smax : Int) (stipend : StipendRaw) : ℚ :=
  if smin ≤ parse_stipend stipend ∧ parse_stipend stipend ≤ smax then 1/10 else 0

/-- Adjusted score of one item: base cosine similarity plus the four
boosts, added in the order of the source. -/
def adjustedScore (crit : Criteria) (today : Int) (it : Internship) (sim : ℚ) : ℚ :=
  sim + locationBoost crit.location it.location
      + durationBoost crit.duration it.duration
      + stipendBoost crit.stipendMin crit.stipendMax it.stipend
      + recencyBoost it.applyBy today

/-- Ascending comparison on scored items, the key of the model of
`np.argsort(adjusted_scores)`. -/
def scoreLe (p q : Internship × ℚ) : Prop := p.2 ≤ q.2

instance : DecidableRel scoreLe :=
  fun p q => inferInstanceAs (Decidable (p.2 ≤ q.2))

instance : IsTotal (Internship × ℚ) scoreLe :=
  ⟨fun p q => le_total p.2 q.2⟩

instance : IsTrans (Internship × ℚ) scoreLe :=
  ⟨fun _ _ _ hab hbc => le_trans hab hbc⟩

/-- One scored item per catalog item, in catalog order (the loop body of
`recommend_internships`). -/
def scoredList (items : List Internship) (sims : List ℚ) (crit : Criteria)
    (today : Int) : List (Internship × ℚ) :=
  (items.zip sims).map (fun p => (p.1, adjustedScore crit today p.1 p.2))

/-- `np.argsort(adjusted_scores)[::-1]` applied to the scored items:
ascending sort, then reversal.  numpy's default sort is unstable in
general; this insertion sort reproduces it exactly on arrays below the
small-array cutoff (the only sizes at which any theorem below speaks
about tie order), and agrees with it up to tie order everywhere. -/
def sortDesc (l : List (Internship × ℚ)) : List (Internship × ℚ) :=
  (List.insertionSort scoreLe l).reverse

/-- `top_results`: the first `top_k` entries of the reversed sort. -/
def topSelection (items : List Internship) (sims : List ℚ) (crit : Criteria)
    (today : Int) (topK : Nat) : List (Internship × ℚ) :=
  (sortDesc (scoredList items sims crit today)).take topK

/-- `top_results[0][1] if top_results else 0`. -/
def bestScore : List (Internship × ℚ) → ℚ
  | [] => 0
  | p :: _ => p.2

/-- `recommend_internships`: score, sort, truncate to `top_k` and
classify by the best score.  The cosine similarities `sims` (one per
item, in catalog order) and the current day `today` are explicit inputs
of the model. -/
def recommend_internships (items : List Internship) (sims : List ℚ)
    (crit : Criteria) (today : Int) (topK : Nat) :
    String × List (Internship × ℚ) :=
  if bestScore (topSelection items sims crit today topK) < 3/10 then
    ("no_results", [])
  else if bestScore (topSelection items sims crit today topK) < 9/20 then
    ("suggestion", topSelection items sims crit today topK)
  else
    ("results", topSelection items sims crit today topK)

/-- Embedding input text of `create_or_update_embeddings`:
`f"{title} {organization} {description} {skills}"`. -/
def embedText (it : Internship) : List Char :=
  it.title ++ [' '] ++ it.organization ++ [' '] ++ it.description ++ [' '] ++ it.skills

/-- The loop of `create_or_update_embeddings`, threading the cache (an
association list in insertion order), the `updated` flag and the number
of Embedding Provider calls made. -/
def updateCacheLoop (embed : List Char → List ℚ) :
    List Internship → List (String × List ℚ) → Bool → Nat →
    List (String × List ℚ) × Bool × Nat
  | [], cache, upd, calls => (cache, upd, calls)
  | it :: rest, cache, upd, calls =>
    if (cache.lookup it.id).isSome then updateCacheLoop embed rest cache upd calls
    else
      updateCacheLoop embed rest (cache ++ [(it.id, embed (embedText it))]) true (calls + 1)

/-- `create_or_update_embeddings`: returns the updated cache, the number
of Embedding Provider calls made, and the number of cache-file writes
(`json.dump` runs once, after the loop, and only when `updated`). -/
def create_or_update_embeddings (embed : List Char → List ℚ)
    (items : List Internship) (cache : List (String × List ℚ)) :
    List (String × List ℚ) × Nat × Nat :=
  ((updateCacheLoop embed items cache false 0).1,
   (updateCacheLoop embed items cache false 0).2.2,
   if (updateCacheLoop embed items cache false 0).2.1 then 1 else 0)

/-- A catalog item none of whose fields triggers a boost under
`noBoostCriteria`, used for concrete instances. -/
def sampleItem (id : String) : Internship :=
  ⟨id, pys "t", pys "o", pys "Delhi", pys "3 months", [], [], .num 0, none⟩

/-- Filter arguments that trigger no boost: both dropdowns on "Any" and
an empty stipend interval. -/
def noBoostCriteria : Criteria := ⟨pys "Any", pys "Any", 1, 0⟩

/-! ## Supporting lemmas -/

theorem locationBoost_nonneg (req itemLoc : List Char) :
    0 ≤ locationBoost req itemLoc := by
  unfold locationBoost; split <;> norm_num

theorem durationBoost_nonneg (req itemDur : List Char) :
    0 ≤ durationBoost req itemDur := by
  unfold durationBoost; split <;> norm_num

theorem stipendBoost_nonneg (smin smax : Int) (st : StipendRaw) :
    0 ≤ stipendBoost smin smax st := by
  unfold stipendBoost; split <;> norm_num

theorem recencyBoost_nonneg (a : Option (List Char)) (t : Int) :
    0 ≤ recencyBoost a t := by
  unfold recencyBoost
  split
  · exact le_refl 0
  split
  · exact le_refl 0
  split
  · rename_i d hd hc
    have h30 : (0 : ℚ) ≤ ((30 - ((toOrdinal d : Int) - t) : Int) : ℚ) := by
      have : (0 : Int) ≤ 30 - ((toOrdinal d : Int) - t) := by linarith [hc.2]
      exact_mod_cast this
    have := mul_nonneg (by norm_num : (0 : ℚ) ≤ 1/10) h30
    exact div_nonneg this (by norm_num)
  · exact le_refl 0

theorem recencyBoost_le (a : Option (List Char)) (t : Int) :
    recencyBoost a t ≤ 1/10 := by
  unfold recencyBoost
  split
  · norm_num
  split
  · norm_num
  split
  · rename_i d hd hc
    have h30 : ((30 - ((toOrdinal d : Int) - t) : Int) : ℚ) ≤ 30 := by
      have : 30 - ((toOrdinal d : Int) - t) ≤ (30 : Int) := by linarith [hc.1]
      exact_mod_cast this
    linarith [h30]
  · norm_num

theorem sortDesc_pairwise (l : List (Internship × ℚ)) :
    (sortDesc l).Pairwise (fun p q => q.2 ≤ p.2) := by
  unfold sortDesc
  refine List.pairwise_reverse.mpr ?_
  exact List.sorted_insertionSort scoreLe l

theorem sortDesc_length (l : List (Internship × ℚ)) :
    (sortDesc l).length = l.length := by
  unfold sortDesc
  rw [List.length_reverse]
  exact (List.perm_insertionSort scoreLe l).length_eq

theorem scoredList_length (items : List Internship) (sims : List ℚ)
    (crit : Criteria) (today : Int) :
    (scoredList items sims crit today).length = min items.length sims.length := by
  simp [scoredList]

theorem scoredList_ne_nil (items : List Internship) (sims : List ℚ)
    (crit : Criteria) (today : Int) (hne : items ≠ [])
    (hlen : sims.length = items.length) :
    scoredList items sims crit today ≠ [] := by
  apply List.length_pos.mp
  rw [scoredList_length, hlen, Nat.min_self]
  exact List.length_pos.mpr hne

theorem pySplitAux_mem (p : Char → Bool) :
    ∀ (x t : List Char) (c : Char),
      (t = (pySplitAux p x).1 ∨ t ∈ (pySplitAux p x).2) → c ∈ t → c ∈ x := by
  intro x
  induction x with
  | nil =>
    intro t c ht hc
    rcases ht with ht | ht
    · rw [ht] at hc; exact absurd hc (List.not_mem_nil c)
    · exact absurd ht (List.not_mem_nil t)
  | cons a as ih =>
    intro t c ht hc
    cases haux : pySplitAux p as with
    | mk t0 ts0 =>
      have hform : pySplitAux p (a :: as) =
          if p a then ([], t0 :: ts0) else (a :: t0, ts0) := by
        simp only [pySplitAux, haux]
      rw [hform] at ht
      rw [haux] at ih
      by_cases hp : p a = true
      · rw [if_pos hp] at ht
        rcases ht with ht | ht
        · rw [ht] at hc; exact absurd hc (List.not_mem_nil c)
        · rcases List.mem_cons.mp ht with h0 | hts
          · exact List.mem_cons_of_mem a (ih t c (Or.inl h0) hc)
          · exact List.mem_cons_of_mem a (ih t c (Or.inr hts) hc)
      · rw [if_neg hp] at ht
        rcases ht with ht | hts
        · rw [ht] at hc
          rcases List.mem_cons.mp hc with h0 | hc0
          · rw [h0]; exact List.mem_cons_self a as
          · exact List.mem_cons_of_mem a (ih t0 c (Or.inl rfl) hc0)
        · exact List.mem_cons_of_mem a (ih t c (Or.inr hts) hc)

theorem mem_of_mem_pySplitOn (p : Char → Bool) (x t : List Char) (c : Char)
    (ht : t ∈ pySplitOn p x) (hc : c ∈ t) : c ∈ x := by
  unfold pySplitOn at ht
  rcases List.mem_cons.mp ht with h0 | hts
  · exact pySplitAux_mem p x t c (Or.inl h0) hc
  · exact pySplitAux_mem p x t c (Or.inr hts) hc

theorem mem_of_mem_pySplitWs (x t : List Char) (c : Char)
    (ht : t ∈ pySplitWs x) (hc : c ∈ t) : c ∈ x :=
  mem_of_mem_pySplitOn _ x t c (List.mem_of_mem_filter ht) hc

theorem pySplitAux_no_sep (p : Char → Bool) :
    ∀ (x : List Char), (∀ c ∈ x, p c = false) → pySplitAux p x = (x, []) := by
  intro x
  induction x with
  | nil => intro _; rfl
  | cons a as ih =>
    intro hx
    have ha : p a = false := hx a (List.mem_cons_self a as)
    have has := ih (fun c hc => hx c (List.mem_cons_of_mem a hc))
    simp [pySplitAux, has, ha]

theorem pySplitAux_single_sep (p : Char → Bool) (sep : Char)
    (hsep : p sep = true) :
    ∀ (lo hi : List Char), (∀ c ∈ lo, p c = false) → (∀ c ∈ hi, p c = false) →
      pySplitAux p (lo ++ sep :: hi) = (lo, [hi]) := by
  intro lo
  induction lo with
  | nil =>
    intro hi _ hhi
    have := pySplitAux_no_sep p hi hhi
    simp [pySplitAux, hsep, this]
  | cons a as ih =>
    intro hi hlo hhi
    have ha : p a = false := hlo a (List.mem_cons_self a as)
    have h := ih hi (fun c hc => hlo c (List.mem_cons_of_mem a hc)) hhi
    simp [pySplitAux, List.cons_append, h, ha]

theorem pySplitOn_single_sep (p : Char → Bool) (sep : Char) (hsep : p sep = true)
    (lo hi : List Char) (hlo : ∀ c ∈ lo, p c = false)
    (hhi : ∀ c ∈ hi, p c = false) :
    pySplitOn p (lo ++ sep :: hi) = [lo, hi] := by
  unfold pySplitOn
  rw [pySplitAux_single_sep p sep hsep lo hi hlo hhi]

theorem digit_not_ws {c : Char} (h : c.isDigit = true) :
    c.isWhitespace = false := by
  have h1 : c ≠ ' ' := by intro e; rw [e] at h; exact absurd h (by decide)
  have h2 : c ≠ '\t' := by intro e; rw [e] at h; exact absurd h (by decide)
  have h3 : c ≠ '\r' := by intro e; rw [e] at h; exact absurd h (by decide)
  have h4 : c ≠ '\n' := by intro e; rw [e] at h; exact absurd h (by decide)
  simp [Char.isWhitespace, h1, h2, h3, h4]

theorem digit_not_hyphen {c : Char} (h : c.isDigit = true) :
    (c == '-') = false := by
  rw [beq_eq_false_iff_ne]
  intro e; rw [e] at h; exact absurd h (by decide)

theorem dropWhile_eq_self_of_none (p : Char → Bool) (l : List Char)
    (h : ∀ c ∈ l, p c = false) : l.dropWhile p = l := by
  cases l with
  | nil => rfl
  | cons a as =>
    rw [List.dropWhile_cons, if_neg]
    simp [h a (List.mem_cons_self a as)]

theorem stripWs_eq_self (l : List Char)
    (h : ∀ c ∈ l, c.isWhitespace = false) : stripWs l = l := by
  unfold stripWs
  rw [dropWhile_eq_self_of_none _ _ h,
      dropWhile_eq_self_of_none _ _ (fun c hc => h c (List.mem_reverse.mp hc)),
      List.reverse_reverse]

theorem pyInt_digits (l : List Char) (hne : l ≠ [])
    (hd : l.all Char.isDigit = true) : pyInt l = some (digitsVal l) := by
  have hall : ∀ c ∈ l, c.isDigit = true := List.all_eq_true.mp hd
  have hstrip : stripWs l = l :=
    stripWs_eq_self l (fun c hc => digit_not_ws (hall c hc))
  unfold pyInt
  rw [hstrip]
  cases l with
  | nil => exact absurd rfl hne
  | cons a as =>
    have hadig : a.isDigit = true := hall a (List.mem_cons_self a as)
    have hplus : ¬ a = '+' := by
      intro e; rw [e] at hadig; exact absurd hadig (by decide)
    have hminus : ¬ a = '-' := by
      intro e; rw [e] at hadig; exact absurd hadig (by decide)
    dsimp only
    rw [if_neg hplus, if_neg hminus]
    unfold digitsOpt
    rw [if_pos (by simp [hd])]
    rfl

/-! ## Claim theorems -/

/-- C4: the recency boost equals `0.10 * (30 - days_left)/30` when
`0 < days_left <= 30`, where `days_left = apply_by_date - today` in
days; it is `0` when `days_left` lies outside that range, `0` when the
stored deadline is missing or unparseable in the fixed `%d-%b-%Y`
format; and it always lies in `[0, 0.10]`. -/
theorem recencyBoost_spec (applyBy : Option (List Char)) (today : Int) :
    (∀ s d, applyBy = some s → parseDate s = some d →
      (0 < (toOrdinal d : Int) - today ∧ (toOrdinal d : Int) - today ≤ 30 →
        recencyBoost applyBy today =
          1/10 * ((30 - ((toOrdinal d : Int) - today) : Int) : ℚ) / 30) ∧
      (¬(0 < (toOrdinal d : Int) - today ∧ (toOrdinal d : Int) - today ≤ 30) →
        recencyBoost applyBy today = 0)) ∧
    (applyBy = none → recencyBoost applyBy today = 0) ∧
    (∀ s, applyBy = some s → parseDate s = none → recencyBoost applyBy today = 0) ∧
    0 ≤ recencyBoost applyBy today ∧ recencyBoost applyBy today ≤ 1/10 := by
  refine ⟨?_, ?_, ?_, recencyBoost_nonneg _ _, recencyBoost_le _ _⟩
  · intro s d hs hd
    subst hs
    constructor
    · intro hc
      simp only [recencyBoost, hd, if_pos hc]
    · intro hc
      simp only [recencyBoost, hd, if_neg hc]
  · intro h; subst h; rfl
  · intro s hs hd; subst hs; simp only [recencyBoost, hd]

/-- Witness for C4: deadline "15-Mar-2025" seen 7 days earlier gives
boost `0.10 * 23/30 = 23/300`. -/
theorem recencyBoost_spec_witness :
    recencyBoost (some (pys "15-Mar-2025")) (toOrdinal ⟨2025, 3, 8⟩) = 23/300 := by
  have h := ((recencyBoost_spec (some (pys "15-Mar-2025")) (toOrdinal ⟨2025, 3, 8⟩)).1
      (pys "15-Mar-2025") ⟨2025, 3, 15⟩ rfl (by decide)).1 (by decide)
  rw [h]; decide

/-- C5 (supporting evidence for a code bug): downstream of the
similarity stage, the empty-catalog case is handled exactly as the
spec intends — zero scored items, `best_score` falling back to `0` via
`top_results[0][1] if top_results else 0`, outcome `no_results` with
an empty list.  The real program never reaches this code on an empty
catalog: at line 106 `cosine_similarity` raises a `ValueError`
rejecting the 1-D, 0-sample `np.array([])` embeddings matrix, before
any of the logic modelled here runs. -/
theorem recommend_empty_catalog (crit : Criteria) (today : Int) (topK : Nat) :
    recommend_internships [] [] crit today topK = ("no_results", []) ∧
    bestScore (topSelection [] [] crit today topK) = 0 := by
  have hts : topSelection [] [] crit today topK = [] := by
    simp [topSelection, sortDesc, scoredList]
  constructor
  · simp only [recommend_internships, hts]
    rw [if_pos (by norm_num [bestScore])]
  · rw [hts]; rfl

/-- C6 counterexample: with the requested location the literal string
"any" (the wildcard as the claim spells it) and item location
"Germany", the code adds the 0.15 boost, because the code only compares
against the capitalised sentinel "Any" and "any" is a case-insensitive
substring of "Germany"; the claim requires no boost for the wildcard. -/
theorem locationBoost_wildcard_cex :
    locationBoost (pys "any") (pys "Germany") = 3/20 ∧ (3/20 : ℚ) ≠ 0 := by
  constructor
  · decide
  · norm_num

/-- C6 amended: the +0.15 location boost is added exactly when the
requested location differs from the exact, case-sensitive sentinel
string "Any" and is a case-insensitive substring of the item's
location. -/
theorem locationBoost_spec (req itemLoc : List Char) :
    (locationBoost req itemLoc = 3/20 ↔
      (req ≠ pys "Any" ∧ containsSub (toLowerL req) (toLowerL itemLoc) = true)) ∧
    (locationBoost req itemLoc = 0 ↔
      ¬(req ≠ pys "Any" ∧ containsSub (toLowerL req) (toLowerL itemLoc) = true)) := by
  unfold locationBoost
  split
  · rename_i hcond
    exact ⟨⟨fun _ => hcond, fun _ => rfl⟩,
           ⟨fun h => absurd h (by norm_num), fun h => absurd hcond h⟩⟩
  · rename_i hcond
    exact ⟨⟨fun h => absurd h (by norm_num), fun h => absurd h hcond⟩,
           ⟨fun _ => hcond, fun _ => rfl⟩⟩

/-- C9: ranking is a pure function of catalog, similarities, criteria,
day and top-k: two calls with identical inputs give identical outcome
tag and identical ordered scored items (the wall-clock day, the only
ambient input of the source, is an explicit argument of the model). -/
theorem recommend_deterministic (items : List Internship) (sims : List ℚ)
    (crit : Criteria) (today : Int) (topK : Nat) :
    recommend_internships items sims crit today topK =
      recommend_internships items sims crit today topK ∧
    (recommend_internships items sims crit today topK).1 =
      (recommend_internships items sims crit today topK).1 ∧
    (recommend_internships items sims crit today topK).2 =
      (recommend_internships items sims crit today topK).2 :=
  ⟨rfl, rfl, rfl⟩

/-- C10: the adjusted score never falls below the base cosine
similarity: each of the four boosts is a non-negative addition. -/
theorem adjustedScore_ge_base (crit : Criteria) (today : Int)
    (it : Internship) (sim : ℚ) :
    sim ≤ adjustedScore crit today it sim := by
  unfold adjustedScore
  have h1 := locationBoost_nonneg crit.location it.location
  have h2 := durationBoost_nonneg crit.duration it.duration
  have h3 := stipendBoost_nonneg crit.stipendMin crit.stipendMax it.stipend
  have h4 := recencyBoost_nonneg it.applyBy today
  linarith

/-- C1: for a non-empty catalog (and positive `top_k`), the outcome is
classified from the best adjusted score among the selected items —
`bestScore` really is the maximum of the selection — with
`< 0.30 → no_results` carrying an empty list, `0.30 ≤ · < 0.45 →
suggestion` with the top-K items, and `≥ 0.45 → results` with the top-K
items. -/
theorem recommend_tier_classification (items : List Internship)
    (sims : List ℚ) (crit : Criteria) (today : Int) (topK : Nat)
    (hne : items ≠ []) (hlen : sims.length = items.length) (hk : 1 ≤ topK) :
    (∀ p ∈ topSelection items sims crit today topK,
        p.2 ≤ bestScore (topSelection items sims crit today topK)) ∧
    topSelection items sims crit today topK ≠ [] ∧
    (bestScore (topSelection items sims crit today topK) < 3/10 →
      recommend_internships items sims crit today topK = ("no_results", [])) ∧
    (3/10 ≤ bestScore (topSelection items sims crit today topK) →
      bestScore (topSelection items sims crit today topK) < 9/20 →
      recommend_internships items sims crit today topK =
        ("suggestion", topSelection items sims crit today topK)) ∧
    (9/20 ≤ bestScore (topSelection items sims crit today topK) →
      recommend_internships items sims crit today topK =
        ("results", topSelection items sims crit today topK)) := by
  have hsl := scoredList_ne_nil items sims crit today hne hlen
  have hsdlen : 0 < (sortDesc (scoredList items sims crit today)).length := by
    rw [sortDesc_length]
    exact List.length_pos.mpr hsl
  obtain ⟨h, t, hht⟩ : ∃ h t, sortDesc (scoredList items sims crit today) = h :: t := by
    cases hsd : sortDesc (scoredList items sims crit today) with
    | nil => rw [hsd] at hsdlen; simp at hsdlen
    | cons a b => exact ⟨a, b, rfl⟩
  obtain ⟨k, hkk⟩ : ∃ k, topK = k + 1 :=
    ⟨topK - 1, (Nat.succ_pred_eq_of_pos hk).symm⟩
  have htop : topSelection items sims crit today topK = h :: t.take k := by
    unfold topSelection
    rw [hht, hkk, List.take_succ_cons]
  have hbest : bestScore (topSelection items sims crit today topK) = h.2 := by
    rw [htop]; rfl
  have hpw := sortDesc_pairwise (scoredList items sims crit today)
  rw [hht] at hpw
  have hhead : ∀ q ∈ t, q.2 ≤ h.2 := (List.pairwise_cons.mp hpw).1
  refine ⟨?_, ?_, ?_, ?_, ?_⟩
  · intro p hp
    rw [hbest]
    rw [htop] at hp
    rcases List.mem_cons.mp hp with hp | hp
    · rw [hp]
    · exact hhead p (List.mem_of_mem_take hp)
  · rw [htop]; exact List.cons_ne_nil _ _
  · intro hb
    unfold recommend_internships
    rw [if_pos hb]
  · intro hb1 hb2
    unfold recommend_internships
    rw [if_neg (not_lt.mpr hb1), if_pos hb2]
  · intro hb
    unfold recommend_internships
    rw [if_neg (not_lt.mpr (le_trans (by norm_num) hb)),
        if_neg (not_lt.mpr hb)]

/-- Witness for C1: one item with adjusted score `1/2 ≥ 0.45` is
classified `results`. -/
theorem recommend_tier_classification_witness :
    recommend_internships [sampleItem "w"] [1/2] noBoostCriteria 0 1 =
      ("results", topSelection [sampleItem "w"] [1/2] noBoostCriteria 0 1) :=
  (recommend_tier_classification [sampleItem "w"] [1/2] noBoostCriteria 0 1
    (List.cons_ne_nil _ _) rfl (le_refl 1)).2.2.2.2 (by decide)

/-- C2 counterexample: five items with adjusted scores
`[0.9, 0.9, 0.5, 0.4, 0.1]` (the first two tied) and `top_k = 3` yield
the three highest, but the two tied items in REVERSED catalog order
(`argsort` ascending is stable, and the `[::-1]` reversal flips the
tie), contradicting the claimed original relative order
`["i0", "i1", "i2"]`. -/
theorem recommend_tie_order_cex :
    ((recommend_internships
        [sampleItem "i0", sampleItem "i1", sampleItem "i2",
         sampleItem "i3", sampleItem "i4"]
        [9/10, 9/10, 1/2, 2/5, 1/10] noBoostCriteria 0 3).2.map
          (fun p => p.1.id)) = ["i1", "i0", "i2"] ∧
    (["i1", "i0", "i2"] : List String) ≠ ["i0", "i1", "i2"] := by
  constructor
  · decide
  · decide

/-- C2 amended: the ranker sorts by adjusted score descending and
returns the first `top_k` items (all of them when fewer exist); the
relative order of equal-score items carries no general guarantee
(numpy's default sort is not stable above its small-array cutoff), and
on the claim's own 5-item example — small enough that numpy's sort
runs its stable insertion-sort branch, which the model reproduces —
the two tied items appear in REVERSED catalog order. -/
theorem recommend_sort_spec (items : List Internship) (sims : List ℚ)
    (crit : Criteria) (today : Int) (topK : Nat) :
    (topSelection items sims crit today topK).Pairwise
      (fun p q => q.2 ≤ p.2) ∧
    (topSelection items sims crit today topK).length =
      min topK (min items.length sims.length) ∧
    ((recommend_internships
        [sampleItem "i0", sampleItem "i1", sampleItem "i2",
         sampleItem "i3", sampleItem "i4"]
        [9/10, 9/10, 1/2, 2/5, 1/10] noBoostCriteria 0 3).2.map
          (fun p => p.1.id)) = ["i1", "i0", "i2"] := by
  refine ⟨?_, ?_, by decide⟩
  · exact (sortDesc_pairwise (scoredList items sims crit today)).take
  · unfold topSelection
    rw [List.length_take, sortDesc_length, scoredList_length]

/-- C3 counterexample: `"5,000 - 8,000 per month"` splits into tokens
`["5000", "-", "8000", "per", "month"]`, so the hyphen is NOT inside the
first whitespace-delimited token; the code therefore takes the
`int(parts[0])` branch and returns `5000`, not the claimed average
`6500`. -/
theorem parse_stipend_spaced_range_cex :
    parse_stipend (.str (pys "5,000 - 8,000 per month")) = 5000 ∧
    (5000 : Int) ≠ 6500 := by
  constructor
  · decide
  · decide

/-- C3 amended: when the hyphen-delimited numeric range lies entirely
within the first whitespace-delimited token (after stripping commas),
the result is the average of the two bounds with integer (floor)
division; a range whose hyphen is separated by spaces is not of this
form — its first token is just the first number, which is returned
as-is (so `normalize("5,000 - 8,000 per month") = 5000`, exhibited by
the counterexample). -/
theorem parse_stipend_range_spec (s p0 lo hi : List Char)
    (rest : List (List Char))
    (hsplit : pySplitWs (s.filter (fun c => c != ',')) = p0 :: rest)
    (hp0 : p0 = lo ++ '-' :: hi)
    (hlo : lo ≠ [] ∧ lo.all Char.isDigit = true)
    (hhi : hi ≠ [] ∧ hi.all Char.isDigit = true) :
    parse_stipend (.str s) =
      ((digitsVal lo : Int) + (digitsVal hi : Int)).fdiv 2 := by
  have hhyp : '-' ∈ p0 := by
    rw [hp0]; exact List.mem_append_right _ (List.mem_cons_self _ _)
  have hmem : '-' ∈ s := by
    have h2 : '-' ∈ s.filter (fun c => c != ',') :=
      mem_of_mem_pySplitWs _ _ _ (hsplit ▸ List.mem_cons_self p0 rest) hhyp
    exact List.mem_of_mem_filter h2
  have hunpaid : ¬ toLowerL s = pys "unpaid" := by
    intro he
    have hmm : Char.toLower '-' ∈ toLowerL s :=
      List.mem_map_of_mem Char.toLower hmem
    rw [he] at hmm
    exact absurd hmm (by decide)
  have hsplit2 : pySplitOn (fun c => c == '-') p0 = [lo, hi] := by
    rw [hp0]
    exact pySplitOn_single_sep _ '-' (by decide) lo hi
      (fun c hc => digit_not_hyphen (List.all_eq_true.mp hlo.2 c hc))
      (fun c hc => digit_not_hyphen (List.all_eq_true.mp hhi.2 c hc))
  show (parseStipendStr s).getD 0 = _
  unfold parseStipendStr
  rw [if_neg hunpaid, hsplit]
  dsimp only
  rw [if_pos hhyp, hsplit2]
  dsimp only
  rw [pyInt_digits lo hlo.1 hlo.2, pyInt_digits hi hhi.1 hhi.2]
  rfl

/-- Witness for C3 (amended): a range inside one token averages:
`normalize("5000-8000 per month") = 6500`. -/
theorem parse_stipend_range_spec_witness :
    parse_stipend (.str (pys "5000-8000 per month")) = 6500 := by
  have h := parse_stipend_range_spec (pys "5000-8000 per month")
      (pys "5000-8000") (pys "5000") (pys "8000") [pys "per", pys "month"]
      (by decide) (by decide) (by decide) (by decide)
  rw [h]; decide

/-- C7 (evidence for a code bug): the claimed totality holds on
strings and finite numbers — finite floats truncate toward zero
(identity on integers), `"unpaid"` in any capitalisation gives `0`, a
NaN stipend gives `0` because its `ValueError` is caught, and failing
strings give `0` — but `float('inf')` escapes the
`except (ValueError, IndexError)` handler: `int(float('inf'))` raises
`OverflowError` and `parse_stipend` propagates it (`Except.error`),
so "never raises" fails on a documented numeric input. -/
theorem parse_stipend_inf_raises :
    parse_stipend_float .inf = .error () ∧
    parse_stipend_float .negInf = .error () ∧
    parse_stipend_float .nan = .ok 0 ∧
    (∀ q : ℚ, parse_stipend_float (.finite q) = .ok (parse_stipend (.num q))) ∧
    (∀ n : Int, parse_stipend_float (.finite ((n : ℚ))) = .ok n) ∧
    parse_stipend (.str (pys "UNPAID")) = 0 ∧
    parse_stipend (.str (pys "not a number")) = 0 ∧
    parse_stipend (.str []) = 0 := by
  refine ⟨rfl, rfl, rfl, fun q => rfl, ?_, by decide, by decide, by decide⟩
  intro n
  show Except.ok (Int.tdiv ((n : ℚ)).num (((n : ℚ)).den : Int)) = Except.ok n
  rw [Rat.intCast_num, Rat.intCast_den]
  simp [Int.tdiv_one]

theorem lookup_append_isSome {β : Type} (l m : List (String × β)) (k : String)
    (h : (l.lookup k).isSome = true) : ((l ++ m).lookup k).isSome = true := by
  induction l with
  | nil => simp [List.lookup] at h
  | cons a as ih =>
    cases a with
    | mk k0 v0 =>
      by_cases he : (k == k0) = true
      · simp [List.lookup, he]
      · simp only [List.cons_append, List.lookup, he] at h ⊢
        exact ih h

theorem lookup_append_singleton_self {β : Type} (l : List (String × β))
    (k : String) (v : β) : ((l ++ [(k, v)]).lookup k).isSome = true := by
  induction l with
  | nil => simp [List.lookup]
  | cons a as ih =>
    cases a with
    | mk k0 v0 =>
      by_cases he : (k == k0) = true
      · simp [List.lookup, he]
      · simp only [List.cons_append, List.lookup, he]
        exact ih

theorem updateCacheLoop_lookup_mono (embed : List Char → List ℚ) :
    ∀ (items : List Internship) (cache : List (String × List ℚ)) (u : Bool)
      (n : Nat) (k : String), (cache.lookup k).isSome = true →
      (((updateCacheLoop embed items cache u n).1).lookup k).isSome = true := by
  intro items
  induction items with
  | nil => intro cache u n k h; exact h
  | cons it rest ih =>
    intro cache u n k h
    unfold updateCacheLoop
    by_cases hc : (cache.lookup it.id).isSome = true
    · rw [if_pos hc]; exact ih cache u n k h
    · rw [if_neg hc]
      exact ih _ true (n + 1) k (lookup_append_isSome cache _ k h)

theorem updateCacheLoop_all_present (embed : List Char → List ℚ) :
    ∀ (items : List Internship) (cache : List (String × List ℚ)) (u : Bool)
      (n : Nat), ∀ it ∈ items,
      (((updateCacheLoop embed items cache u n).1).lookup it.id).isSome = true := by
  intro items
  induction items with
  | nil => intro cache u n it h; exact absurd h (List.not_mem_nil it)
  | cons a rest ih =>
    intro cache u n it h
    unfold updateCacheLoop
    rcases List.mem_cons.mp h with h0 | hmem
    · by_cases hc : (cache.lookup a.id).isSome = true
      · rw [if_pos hc, h0]
        exact updateCacheLoop_lookup_mono embed rest cache u n a.id hc
      · rw [if_neg hc, h0]
        exact updateCacheLoop_lookup_mono embed rest _ true (n + 1) a.id
          (lookup_append_singleton_self cache a.id _)
    · by_cases hc : (cache.lookup a.id).isSome = true
      · rw [if_pos hc]; exact ih cache u n it hmem
      · rw [if_neg hc]; exact ih _ true (n + 1) it hmem

theorem updateCacheLoop_stable (embed : List Char → List ℚ) :
    ∀ (items : List Internship) (cache : List (String × List ℚ)) (u : Bool)
      (n : Nat), (∀ it ∈ items, (cache.lookup it.id).isSome = true) →
      updateCacheLoop embed items cache u n = (cache, u, n) := by
  intro items
  induction items with
  | nil => intro cache u n _; rfl
  | cons a rest ih =>
    intro cache u n h
    unfold updateCacheLoop
    rw [if_pos (h a (List.mem_cons_self a rest))]
    exact ih cache u n (fun it hit => h it (List.mem_cons_of_mem a hit))

theorem updateCacheLoop_calls_mono (embed : List Char → List ℚ) :
    ∀ (items : List Internship) (cache : List (String × List ℚ)) (u : Bool)
      (n : Nat), n ≤ (updateCacheLoop embed items cache u n).2.2 := by
  intro items
  induction items with
  | nil => intro cache u n; exact le_refl n
  | cons a rest ih =>
    intro cache u n
    unfold updateCacheLoop
    by_cases hc : (cache.lookup a.id).isSome = true
    · rw [if_pos hc]; exact ih cache u n
    · rw [if_neg hc]
      exact le_trans (Nat.le_succ n) (ih _ true (n + 1))

theorem updateCacheLoop_flag (embed : List Char → List ℚ) :
    ∀ (items : List Internship) (cache : List (String × List ℚ)) (u : Bool)
      (n : Nat),
      (updateCacheLoop embed items cache u n).2.1 =
        (u || decide (n < (updateCacheLoop embed items cache u n).2.2)) := by
  intro items
  induction items with
  | nil =>
    intro cache u n
    show u = (u || decide (n < n))
    simp
  | cons a rest ih =>
    intro cache u n
    unfold updateCacheLoop
    by_cases hc : (cache.lookup a.id).isSome = true
    · rw [if_pos hc]; exact ih cache u n
    · rw [if_neg hc]
      rw [ih _ true (n + 1)]
      have hm := updateCacheLoop_calls_mono embed rest
        (cache ++ [(a.id, embed (embedText a))]) true (n + 1)
      have hlt : n < (updateCacheLoop embed rest
          (cache ++ [(a.id, embed (embedText a))]) true (n + 1)).2.2 :=
        Nat.lt_of_lt_of_le (Nat.lt_succ_self n) hm
      simp [hlt]

/-- C8: rebuilding the cache on an unchanged catalog performs zero
additional Embedding Provider calls, leaves the cache structurally
unchanged, and performs zero further cache-file writes; moreover any
run writes the cache file at most once — after the whole batch, not
once per item — and exactly once when at least one new id was
embedded. -/
theorem cache_idempotent_spec (embed : List Char → List ℚ)
    (items : List Internship) (cache : List (String × List ℚ)) :
    create_or_update_embeddings embed items
        (create_or_update_embeddings embed items cache).1 =
      ((create_or_update_embeddings embed items cache).1, 0, 0) ∧
    (create_or_update_embeddings embed items cache).2.2 ≤ 1 ∧
    ((create_or_update_embeddings embed items cache).2.2 = 1 ↔
      1 ≤ (create_or_update_embeddings embed items cache).2.1) := by
  refine ⟨?_, ?_, ?_⟩
  · have hall := updateCacheLoop_all_present embed items cache false 0
    have hstable := updateCacheLoop_stable embed items
      (updateCacheLoop embed items cache false 0).1 false 0 hall
    unfold create_or_update_embeddings
    rw [hstable]
    rfl
  · unfold create_or_update_embeddings
    dsimp only
    split
    · exact le_refl 1
    · exact Nat.zero_le 1
  · unfold create_or_update_embeddings
    dsimp only
    have hflag := updateCacheLoop_flag embed items cache false 0
    rw [hflag]
    by_cases hlt : 0 < (updateCacheLoop embed items cache false 0).2.2
    · simp [hlt]
      omega
    · simp [hlt]
      omega
